import Mathlib

/-
Verification of the initiative.sh command-resolution / generation core.

The Rust sources are shallowly embedded:
 - strings are Lean `String`s, with case folding done on their character
   lists (`String.data`);
 - the reference vocabularies (SRD word lists) are external read-only data
   for the program, so they are passed as explicit parameters;
 - the mutable random source (`&mut impl Rng`) threaded through generation
   is embedded as explicit state passing over an abstract state type;
 - `HashMap`s are embedded as association lists;
 - fallible operations return `Option` / `Except`.
-/

/-! ## Case-insensitive string helpers -/

/-- Modelled from the spec: the case-insensitive comparison helpers of the
`CaseInsensitiveStr` utility module (not among the provided sources; the spec
requires case-insensitive matching throughout). `lowerStr` is the case-folded
character list of a string. -/
def lowerStr (s : String) : List Char := s.data.map Char.toLower

/-- Modelled from the spec: case-insensitive string equality (`eq_ci`). -/
def eq_ci (a b : String) : Bool := lowerStr a == lowerStr b

/-- Modelled from the spec: case-insensitive prefix test (`starts_with_ci`):
does `s` start with `pre`, ignoring case? -/
def starts_with_ci (s pre : String) : Bool := List.isPrefixOf (lowerStr pre) (lowerStr s)

/-- Modelled from the spec: case-insensitive prefix strip (`strip_prefix_ci`):
if `s` starts with `pre` up to case, drop that prefix from the original
string. -/
def strip_prefix_ci (s pre : String) : Option String :=
  if starts_with_ci s pre then some (String.mk (s.data.drop pre.data.length)) else none

theorem lowerStr_mk (l : List Char) : lowerStr (String.mk l) = l.map Char.toLower := rfl

theorem lowerStr_mk_drop (s : String) (n : Nat) :
    lowerStr (String.mk (s.data.drop n)) = (lowerStr s).drop n := by
  rw [lowerStr_mk, lowerStr, List.map_drop]

/-! ## Reference vocabularies

The SRD reference data (spell, item, item-category and magic-item word lists)
is an external read-only collaborator of the core: the `Spell`, `Item`,
`ItemCategory` and `MagicItem` enumerations and their `WordList`-derived
parsers live outside the provided sources. They are modelled from the spec as
finite vocabularies: a list of word/value entries plus a canonical name for
each value. -/

/-- Modelled from the spec: an external read-only reference vocabulary. -/
structure Vocab (α : Type) where
  words : List (String × α)
  name : α → String

/-- Modelled from the spec: the `WordList`-derived `FromStr` instance —
case-insensitive lookup of the input among the vocabulary's words. -/
def Vocab.parse (v : Vocab α) (s : String) : Option α :=
  (v.words.find? (fun e => eq_ci e.1 s)).map (fun e => e.2)

/-- Modelled from the spec: `get_words` enumerates the vocabulary's words
(used by autocomplete). -/
def Vocab.get_words (v : Vocab α) : List String := v.words.map (fun e => e.1)

theorem Vocab.parse_congr (v : Vocab α) (a b : String) (h : lowerStr a = lowerStr b) :
    v.parse a = v.parse b := by
  simp only [Vocab.parse, eq_ci, h]

/-- Modelled from the spec: sample spell values; the variants are the ones
attested in the sources' tests plus a second entry to keep the vocabulary
non-degenerate. -/
inductive Spell where
  | Shield
  | MagicMissile
deriving DecidableEq

/-- Modelled from the spec: sample item values. -/
inductive Item where
  | Shield
  | Dagger
deriving DecidableEq

/-- Modelled from the spec: sample item-category values. -/
inductive ItemCategory where
  | Shields
  | Weapons
deriving DecidableEq

/-- Modelled from the spec: sample magic-item values. -/
inductive MagicItem where
  | DeckOfManyThings
  | BagOfHolding
deriving DecidableEq

/-- Modelled from the spec: the bundle of the four external reference
vocabularies consumed by `ReferenceCommand`. -/
structure RefData where
  spells : Vocab Spell
  items : Vocab Item
  itemCategories : Vocab ItemCategory
  magicItems : Vocab MagicItem

/-- Modelled from the spec: the standard vocabulary contents for the sample
variants (canonical names as displayed by the reference data). -/
def stdRefData : RefData where
  spells :=
    { words := [("Shield", Spell.Shield), ("Magic Missile", Spell.MagicMissile)]
      name := fun s => match s with
        | Spell.Shield => "Shield"
        | Spell.MagicMissile => "Magic Missile" }
  items :=
    { words := [("Shield", Item.Shield), ("Dagger", Item.Dagger)]
      name := fun i => match i with
        | Item.Shield => "Shield"
        | Item.Dagger => "Dagger" }
  itemCategories :=
    { words := [("shields", ItemCategory.Shields), ("weapons", ItemCategory.Weapons)]
      name := fun c => match c with
        | ItemCategory.Shields => "shields"
        | ItemCategory.Weapons => "weapons" }
  magicItems :=
    { words := [("Deck of Many Things", MagicItem.DeckOfManyThings),
                ("Bag of Holding", MagicItem.BagOfHolding)]
      name := fun m => match m with
        | MagicItem.DeckOfManyThings => "Deck of Many Things"
        | MagicItem.BagOfHolding => "Bag of Holding" }

/-! ## ReferenceCommand (core/src/reference/command.rs) -/

/-- From `core/src/reference/command.rs`: the closed set of reference-lookup
commands. -/
inductive ReferenceCommand where
  | Spell (s : Spell)
  | Spells
  | Item (i : Item)
  | ItemCategory (c : ItemCategory)
  | MagicItem (m : MagicItem)
  | OpenGameLicense
deriving DecidableEq

/-- From `core/src/reference/command.rs` (`ContextAwareParse::parse_input`):
the exact match tries the two canonical phrasings case-insensitively, then the
four namespaced prefixed forms in order (spell, item category, item, magic
item); the fuzzy matches accumulate independently per sub-type the raw token
parses as, plus the literal string "spells". The `AppMeta` argument is unused
by the source and omitted. -/
def ReferenceCommand.parse_input (d : RefData) (input : String) :
    Option ReferenceCommand × List ReferenceCommand :=
  let exact_match :=
    if eq_ci input "Open Game License" then some ReferenceCommand.OpenGameLicense
    else if eq_ci input "srd spells" then some ReferenceCommand.Spells
    else
      (((strip_prefix_ci input "srd spell ").bind d.spells.parse).map
          ReferenceCommand.Spell).orElse fun _ =>
      (((strip_prefix_ci input "srd item category ").bind d.itemCategories.parse).map
          ReferenceCommand.ItemCategory).orElse fun _ =>
      (((strip_prefix_ci input "srd item ").bind d.items.parse).map
          ReferenceCommand.Item).orElse fun _ =>
      ((strip_prefix_ci input "srd magic item ").bind d.magicItems.parse).map
          ReferenceCommand.MagicItem
  let fuzzy_matches :=
    (match d.spells.parse input with
      | some s => [ReferenceCommand.Spell s]
      | none => []) ++
    (match d.items.parse input with
      | some i => [ReferenceCommand.Item i]
      | none => []) ++
    (match d.itemCategories.parse input with
      | some c => [ReferenceCommand.ItemCategory c]
      | none => []) ++
    (match d.magicItems.parse input with
      | some m => [ReferenceCommand.MagicItem m]
      | none => []) ++
    (if input == "spells" then [ReferenceCommand.Spells] else [])
  (exact_match, fuzzy_matches)

/-- From `core/src/reference/command.rs` (`impl fmt::Display`): the canonical
display phrasing of each command. -/
def ReferenceCommand.display (d : RefData) : ReferenceCommand → String
  | ReferenceCommand.Spell s => "srd spell " ++ d.spells.name s
  | ReferenceCommand.Spells => "srd spells"
  | ReferenceCommand.Item i => "srd item " ++ d.items.name i
  | ReferenceCommand.ItemCategory c => "srd item category " ++ d.itemCategories.name c
  | ReferenceCommand.MagicItem m => "srd magic item " ++ d.magicItems.name m
  | ReferenceCommand.OpenGameLicense => "Open Game License"

theorem strip_parse_congr (v : Vocab α) (p a b : String) (h : lowerStr a = lowerStr b) :
    (strip_prefix_ci a p).bind v.parse = (strip_prefix_ci b p).bind v.parse := by
  simp only [strip_prefix_ci, starts_with_ci, h]
  by_cases hc : List.isPrefixOf (lowerStr p) (lowerStr b) = true
  · simp only [hc, if_true, Option.bind_some]
    exact Vocab.parse_congr v _ _ (by rw [lowerStr_mk_drop, lowerStr_mk_drop, h])
  · simp only [Bool.not_eq_true] at hc
    simp [hc]

theorem parse_input_congr (d : RefData) (a b : String) (h1 : lowerStr a = lowerStr b)
    (h2 : (a == "spells") = (b == "spells")) :
    ReferenceCommand.parse_input d a = ReferenceCommand.parse_input d b := by
  simp only [ReferenceCommand.parse_input, eq_ci, h1, h2,
    strip_parse_congr d.spells "srd spell " a b h1,
    strip_parse_congr d.itemCategories "srd item category " a b h1,
    strip_parse_congr d.items "srd item " a b h1,
    strip_parse_congr d.magicItems "srd magic item " a b h1,
    Vocab.parse_congr d.spells a b h1, Vocab.parse_congr d.items a b h1,
    Vocab.parse_congr d.itemCategories a b h1, Vocab.parse_congr d.magicItems a b h1]

theorem beq_spells_congr (a b : String) (h : lowerStr a = lowerStr b)
    (hb : lowerStr b ≠ lowerStr "spells") : (a == "spells") = (b == "spells") := by
  have ha : a ≠ "spells" := fun e => hb (by rw [← h, e])
  have hb' : b ≠ "spells" := fun e => hb (by rw [e])
  simp [ha, hb']

/-- C2: for every ReferenceCommand variant c, parsing the canonical display
phrasing produced by rendering c, in any letter case (any input whose
case-folding equals the phrasing's case-folding), yields (some c, []): c as
the exact match and an empty fuzzy-match list. -/
theorem c2_parse_display_roundtrip (c : ReferenceCommand) (input : String)
    (h : lowerStr input = lowerStr (ReferenceCommand.display stdRefData c)) :
    ReferenceCommand.parse_input stdRefData input = (some c, []) := by
  have step : ∀ c' : ReferenceCommand,
      lowerStr input = lowerStr (ReferenceCommand.display stdRefData c') →
      lowerStr (ReferenceCommand.display stdRefData c') ≠ lowerStr "spells" →
      ReferenceCommand.parse_input stdRefData (ReferenceCommand.display stdRefData c') =
        (some c', []) →
      ReferenceCommand.parse_input stdRefData input = (some c', []) := by
    intro c' h1 h2 h3
    rw [parse_input_congr stdRefData input _ h1 (beq_spells_congr _ _ h1 h2), h3]
  cases c with
  | Spell s => cases s <;> exact step _ h (by decide) (by decide)
  | Spells => exact step _ h (by decide) (by decide)
  | Item i => cases i <;> exact step _ h (by decide) (by decide)
  | ItemCategory k => cases k <;> exact step _ h (by decide) (by decide)
  | MagicItem m => cases m <;> exact step _ h (by decide) (by decide)
  | OpenGameLicense => exact step _ h (by decide) (by decide)

/-- C2 witness: the input "SRD SPELLS" is a case variant of the canonical
phrasing of the spell-index command and resolves to it exactly, with no fuzzy
matches. -/
theorem c2_witness :
    lowerStr "SRD SPELLS" = lowerStr (ReferenceCommand.display stdRefData ReferenceCommand.Spells) ∧
    ReferenceCommand.parse_input stdRefData "SRD SPELLS" = (some ReferenceCommand.Spells, []) :=
  ⟨by decide, c2_parse_display_roundtrip ReferenceCommand.Spells "SRD SPELLS" (by decide)⟩

/-! ## Autocomplete (core/src/reference/command.rs, core/src/app/mod.rs) -/

/-- From `core/src/reference/command.rs` (`Autocomplete::autocomplete`),
before the cap: the two built-in suggestions chained with the four word lists
zipped against their constant category hints, filtered by case-insensitive
prefix match of the label against the partial input. -/
def ReferenceCommand.autocompleteMatches (d : RefData) (input : String) :
    List (String × String) :=
  (("Open Game License", "SRD license") :: ("spells", "SRD index") ::
      (d.spells.get_words.map (fun w => (w, "SRD spell")) ++
        d.items.get_words.map (fun w => (w, "SRD item")) ++
        d.itemCategories.get_words.map (fun w => (w, "SRD item category")) ++
        d.magicItems.get_words.map (fun w => (w, "SRD magic item")))).filter
    (fun e => starts_with_ci e.1 input)

/-- From `core/src/reference/command.rs`: the filtered suggestion chain is
capped with take(10). -/
def ReferenceCommand.autocomplete (d : RefData) (input : String) :
    List (String × String) :=
  (ReferenceCommand.autocompleteMatches d input).take 10

/-- C6: every suggestion label returned by autocomplete starts,
case-insensitively, with the partial input. -/
theorem c6_autocomplete_labels_match (d : RefData) (input : String) (p : String × String)
    (h : p ∈ ReferenceCommand.autocomplete d input) : starts_with_ci p.1 input = true :=
  (List.mem_filter.mp (List.mem_of_mem_take h)).2

/-- C6 witness: the suggestion "spells" is returned for the partial input
"SP" and indeed starts with it case-insensitively. -/
theorem c6_witness :
    ("spells", "SRD index") ∈ ReferenceCommand.autocomplete stdRefData "SP" ∧
    starts_with_ci "spells" "SP" = true :=
  ⟨by decide, c6_autocomplete_labels_match stdRefData "SP" ("spells", "SRD index") (by decide)⟩

/-- Modelled from the spec: `Command::autocomplete` (the cross-family merge
step, not among the provided sources) merges the suggestion lists of every
command family and caps the merged list at 10 results. The families are
passed as their already-computed per-family suggestion lists. -/
def Command.autocomplete (families : List (List (String × String))) :
    List (String × String) :=
  families.flatten.take 10

/-- From `core/src/app/mod.rs` (`App::autocomplete`): collect the merged
suggestions and sort them by label (`Vec::sort_by` with `a.cmp(b)` on the
labels, a stable sort, embedded as a stable merge sort). -/
def App.autocomplete (families : List (List (String × String))) :
    List (String × String) :=
  (Command.autocomplete families).mergeSort (fun a b => decide (a.1 ≤ b.1))

/-- C4: the application-level autocomplete never returns more than 10
suggestions, including when suggestions from multiple command families are
merged into one list. -/
theorem c4_autocomplete_capped (families : List (List (String × String))) :
    (App.autocomplete families).length ≤ 10 := by
  rw [App.autocomplete, List.length_mergeSort, Command.autocomplete]
  exact List.length_take_le ..

/-- C7: the suggestion list returned by the application-level autocomplete is
sorted in ascending lexicographic order of label, and the sort is stable:
restricted to any fixed label, the output lists exactly the entries of the
merged source list in their original relative order (hence the output is a
deterministic function of the merged sources). -/
theorem c7_autocomplete_sorted_stable (families : List (List (String × String))) :
    List.Pairwise (fun a b : String × String => a.1 ≤ b.1) (App.autocomplete families) ∧
    ∀ l : String,
      (App.autocomplete families).filter (fun p => p.1 == l) =
        (Command.autocomplete families).filter (fun p => p.1 == l) := by
  have htrans : ∀ a b c : String × String,
      decide (a.1 ≤ b.1) → decide (b.1 ≤ c.1) → decide (a.1 ≤ c.1) := by
    intro a b c hab hbc
    simp only [decide_eq_true_eq] at *
    exact le_trans hab hbc
  have htotal : ∀ a b : String × String, decide (a.1 ≤ b.1) || decide (b.1 ≤ a.1) := by
    intro a b
    rcases le_total a.1 b.1 with h | h <;> simp [h]
  constructor
  · rw [App.autocomplete]
    exact (List.sorted_mergeSort htrans htotal _).imp (fun h => of_decide_eq_true h)
  · intro l
    rw [App.autocomplete]
    have hall : ∀ p ∈ (Command.autocomplete families).filter (fun p => p.1 == l),
        p.1 = l := by
      intro p hp
      simpa using (List.mem_filter.mp hp).2
    have hpair : ((Command.autocomplete families).filter (fun p => p.1 == l)).Pairwise
        (fun a b : String × String => decide (a.1 ≤ b.1)) :=
      List.pairwise_of_forall_mem_list (by
        intro a ha b hb
        simp [hall a ha, hall b hb])
    have h1 : List.Sublist ((Command.autocomplete families).filter (fun p => p.1 == l))
        ((Command.autocomplete families).mergeSort (fun a b => decide (a.1 ≤ b.1))) :=
      List.sublist_mergeSort htrans htotal hpair (List.filter_sublist _)
    have h2 : List.Perm
        (((Command.autocomplete families).mergeSort
            (fun a b => decide (a.1 ≤ b.1))).filter (fun p => p.1 == l))
        ((Command.autocomplete families).filter (fun p => p.1 == l)) :=
      (List.mergeSort_perm (Command.autocomplete families) _).filter _
    have hcf : ((Command.autocomplete families).filter (fun p => p.1 == l)).filter
        (fun p => p.1 == l) = (Command.autocomplete families).filter (fun p => p.1 == l) :=
      List.filter_eq_self.mpr (fun a ha => by simp [hall a ha])
    have h3 : List.Sublist ((Command.autocomplete families).filter (fun p => p.1 == l))
        (((Command.autocomplete families).mergeSort
            (fun a b => decide (a.1 ≤ b.1))).filter (fun p => p.1 == l)) := by
      rw [← hcf]
      exact h1.filter _
    exact (h3.eq_of_length h2.length_eq.symm).symm

/-- Modelled from the spec: a vocabulary instance on which the take-10 cap
truncates the suggestion list — ten spell words starting with the letter s
together with the single item word "Shield". -/
def cxRefData : RefData where
  spells :=
    { words := [("Sanctuary", Spell.Shield), ("Scorching Ray", Spell.Shield),
                ("Scrying", Spell.Shield), ("See Invisibility", Spell.Shield),
                ("Sending", Spell.Shield), ("Shatter", Spell.Shield),
                ("Shield", Spell.Shield), ("Shield of Faith", Spell.Shield),
                ("Shillelagh", Spell.Shield), ("Silence", Spell.Shield)]
      name := fun _ => "Shield" }
  items := { words := [("Shield", Item.Shield)], name := fun _ => "Shield" }
  itemCategories := { words := [], name := fun _ => "shields" }
  magicItems := { words := [], name := fun _ => "" }

/-- C8 counterexample: with ten spell words matching the partial input "s",
the label "Shield" matches in both the spell source and the item source, yet
only the spell entry survives the take-10 cap — the item entry is absent from
the returned list. So a label that matches in two different sources with
different category hints does not always appear once for each hint. -/
theorem c8_counterexample :
    ("Shield" ∈ cxRefData.spells.get_words ∧ "Shield" ∈ cxRefData.items.get_words ∧
        starts_with_ci "Shield" "s" = true) ∧
    ("Shield", "SRD spell") ∈ ReferenceCommand.autocomplete cxRefData "s" ∧
    ("Shield", "SRD item") ∉ ReferenceCommand.autocomplete cxRefData "s" := by
  decide

/-- C8 amended: the suggestion list never repeats a (label, category hint)
pair, assuming the external word lists are duplicate-free; and whenever all
matches fit within the 10-result cap, the returned list is exactly the full
filtered match list, so a label matching in several sources then appears once
per category hint. -/
theorem c8_autocomplete_nodup (d : RefData) (input : String)
    (h1 : d.spells.get_words.Nodup) (h2 : d.items.get_words.Nodup)
    (h3 : d.itemCategories.get_words.Nodup) (h4 : d.magicItems.get_words.Nodup) :
    (ReferenceCommand.autocomplete d input).Nodup ∧
    ((ReferenceCommand.autocompleteMatches d input).length ≤ 10 →
      ReferenceCommand.autocomplete d input = ReferenceCommand.autocompleteMatches d input) := by
  have hmem : ∀ (c : String) (l : List String) (p : String × String),
      p ∈ l.map (fun w => (w, c)) → p.2 = c := by
    intro c l p hp
    obtain ⟨w, _, rfl⟩ := List.mem_map.mp hp
    rfl
  have hdisj : ∀ (c₁ c₂ : String) (l₁ l₂ : List String), c₁ ≠ c₂ →
      List.Disjoint (l₁.map (fun w => (w, c₁))) (l₂.map (fun w => (w, c₂))) := by
    intro c₁ c₂ l₁ l₂ hne p hp₁ hp₂
    exact hne ((hmem c₁ l₁ p hp₁).symm.trans (hmem c₂ l₂ p hp₂))
  have hinj : ∀ c : String, Function.Injective (fun w : String => (w, c)) := by
    intro c a b e
    exact congrArg Prod.fst e
  have happ : (d.spells.get_words.map (fun w => (w, "SRD spell")) ++
      d.items.get_words.map (fun w => (w, "SRD item")) ++
      d.itemCategories.get_words.map (fun w => (w, "SRD item category")) ++
      d.magicItems.get_words.map (fun w => (w, "SRD magic item"))).Nodup := by
    simp only [List.nodup_append, List.disjoint_append_left]
    and_intros <;>
      first
      | exact h1.map (hinj _)
      | exact h2.map (hinj _)
      | exact h3.map (hinj _)
      | exact h4.map (hinj _)
      | exact hdisj _ _ _ _ (by decide)
  have hsnd : ∀ p ∈ d.spells.get_words.map (fun w => (w, "SRD spell")) ++
      d.items.get_words.map (fun w => (w, "SRD item")) ++
      d.itemCategories.get_words.map (fun w => (w, "SRD item category")) ++
      d.magicItems.get_words.map (fun w => (w, "SRD magic item")),
      p.2 = "SRD spell" ∨ p.2 = "SRD item" ∨ p.2 = "SRD item category" ∨
        p.2 = "SRD magic item" := by
    intro p hp
    simp only [List.mem_append] at hp
    rcases hp with ((h | h) | h) | h
    · exact Or.inl (hmem _ _ _ h)
    · exact Or.inr (Or.inl (hmem _ _ _ h))
    · exact Or.inr (Or.inr (Or.inl (hmem _ _ _ h)))
    · exact Or.inr (Or.inr (Or.inr (hmem _ _ _ h)))
  have hbase : (("Open Game License", "SRD license") :: ("spells", "SRD index") ::
      (d.spells.get_words.map (fun w => (w, "SRD spell")) ++
        d.items.get_words.map (fun w => (w, "SRD item")) ++
        d.itemCategories.get_words.map (fun w => (w, "SRD item category")) ++
        d.magicItems.get_words.map (fun w => (w, "SRD magic item")))).Nodup := by
    refine List.nodup_cons.mpr ⟨?_, List.nodup_cons.mpr ⟨?_, happ⟩⟩
    · intro hc
      rcases List.mem_cons.mp hc with he | hm
      · exact absurd (congrArg Prod.snd he) (by decide)
      · rcases hsnd _ hm with h | h | h | h <;> exact absurd h (by decide)
    · intro hm
      rcases hsnd _ hm with h | h | h | h <;> exact absurd h (by decide)
  constructor
  · exact ((hbase.filter _).sublist (List.take_sublist ..))
  · intro hlen
    exact List.take_of_length_le hlen

/-- Modelled from the spec: the scenario vocabulary — "Shield" as both a
spell and an item, no other reference words. -/
def scenarioRefData : RefData where
  spells := { words := [("Shield", Spell.Shield)], name := fun _ => "Shield" }
  items := { words := [("Shield", Item.Shield)], name := fun _ => "Shield" }
  itemCategories := { words := [], name := fun _ => "" }
  magicItems := { words := [], name := fun _ => "" }

/-- C8 witness: on the scenario vocabulary the amended property holds, and
the result for partial input "s" contains both "Shield" entries with their
distinct category hints, plus "spells". -/
theorem c8_witness :
    ((ReferenceCommand.autocomplete scenarioRefData "s").Nodup ∧
      ((ReferenceCommand.autocompleteMatches scenarioRefData "s").length ≤ 10 →
        ReferenceCommand.autocomplete scenarioRefData "s" =
          ReferenceCommand.autocompleteMatches scenarioRefData "s")) ∧
    ReferenceCommand.autocomplete scenarioRefData "s" =
      [("spells", "SRD index"), ("Shield", "SRD spell"), ("Shield", "SRD item")] :=
  ⟨c8_autocomplete_nodup scenarioRefData "s" (by decide) (by decide) (by decide) (by decide),
    by decide⟩

/-! ## Running reference commands (core/src/reference/command.rs, Runnable) -/

/-- From `core/src/reference/command.rs` (`linkify_dice`): the ASCII
punctuation class of `char::is_ascii_punctuation`. -/
def isAsciiPunct (c : Char) : Bool :=
  (33 ≤ c.toNat && c.toNat ≤ 47) || (58 ≤ c.toNat && c.toNat ≤ 64) ||
    (91 ≤ c.toNat && c.toNat ≤ 96) || (123 ≤ c.toNat && c.toNat ≤ 126)

/-- From `core/src/reference/command.rs` (`linkify_dice`): the separator
class of the `split_inclusive` call — whitespace or ASCII punctuation (the
Unicode whitespace class is embedded by its ASCII restriction). -/
def isSepChar (c : Char) : Bool := c.isWhitespace || isAsciiPunct c

/-- From `core/src/reference/command.rs` (`linkify_dice`): `str::trim`,
removing whitespace from both ends. -/
def trimChars (l : List Char) : List Char :=
  ((l.dropWhile Char.isWhitespace).reverse.dropWhile Char.isWhitespace).reverse

/-- From `core/src/reference/command.rs` (`linkify_dice`): the byte slice
`input[a..b]`, embedded as the character slice at the same boundaries (every
offset the algorithm produces is a sum of part lengths, so the two views
agree). -/
def sliceChars (l : List Char) (a b : Nat) : List Char := (l.take b).drop a

/-- From `core/src/reference/command.rs` (`linkify_dice`): `str::rfind` — the
position of the last character satisfying the predicate. -/
def rfindPos (p : Char → Bool) (l : List Char) : Option Nat :=
  match l.reverse.findIdx? p with
  | some i => some (l.length - 1 - i)
  | none => none

theorem rfindPos_lt (p : Char → Bool) (l : List Char) (pos : Nat)
    (h : rfindPos p l = some pos) (hl : l ≠ []) : pos < l.length := by
  rw [rfindPos] at h
  cases hfi : l.reverse.findIdx? p with
  | none => rw [hfi] at h; cases h
  | some i =>
    rw [hfi] at h
    cases h
    have : 0 < l.length := List.length_pos.mpr hl
    omega

/-- From `core/src/reference/command.rs` (`linkify_dice`): Rust's
`split_inclusive` — each segment ends right after a separator character, the
final segment may lack one, and an empty input yields no segments; the
current segment is accumulated in reverse. -/
def splitInclusiveGo (p : Char → Bool) : List Char → List Char → List (List Char)
  | [], acc => if acc.isEmpty then [] else [acc.reverse]
  | c :: rest, acc =>
    if p c then (acc.reverse ++ [c]) :: splitInclusiveGo p rest []
    else splitInclusiveGo p rest (c :: acc)

/-- From `core/src/reference/command.rs` (`linkify_dice`): entry point of the
splitter. -/
def splitInclusive (p : Char → Bool) (l : List Char) : List (List Char) :=
  splitInclusiveGo p l []

set_option linter.unusedVariables false in
/-- From `core/src/reference/command.rs` (`linkify_dice`, the inner while
loop draining `hold`). The external `caith::Roller` dice-expression check
(`Roller::new` succeeding with an Ok roll) is the parameter `rollerOk`; the
rest is the source's logic: if the trimmed hold contains d or D and passes
the roller check, emit it wrapped in backtick marks, then the slice between
the trimmed hold's end and the current offset, clear the hold and stop;
otherwise truncate the hold at its last separator and retry, flushing the
raw slice once the hold is exhausted. The named match hypothesis is consumed
by the termination proof only. -/
def flushHold (rollerOk : List Char → Bool) (input : List Char)
    (hold_offset input_offset : Nat) (hold result : List Char) : List Char :=
  if hold.isEmpty then result
  else
    let hold_trimmed := trimChars hold
    if (hold_trimmed.contains 'd' || hold_trimmed.contains 'D') && rollerOk hold_trimmed then
      result ++ "`".data ++ hold_trimmed ++ "`".data ++
        sliceChars input (hold_offset + hold_trimmed.length) input_offset
    else
      match h : rfindPos isSepChar hold with
      | some pos =>
        if (hold.take pos).isEmpty then
          result ++ sliceChars input hold_offset input_offset
        else
          flushHold rollerOk input hold_offset input_offset (hold.take pos) result
      | none => result ++ sliceChars input hold_offset input_offset
termination_by hold.length
decreasing_by
  have hne : hold ≠ [] := by
    intro he
    rw [he] at h
    simp [rfindPos] at h
  have hlt := rfindPos_lt isSepChar hold pos h hne
  simp only [List.length_take]
  omega

/-- From `core/src/reference/command.rs` (`linkify_dice`): the mutable locals
of the for loop. -/
structure LinkifyState where
  result : List Char
  input_offset : Nat
  hold : List Char
  hold_offset : Nat
  hold_active : Bool

/-- From `core/src/reference/command.rs` (`linkify_dice`): one iteration of
the for loop over the parts. An inactive hold is activated at the current
offset by a part containing an ASCII digit and a d or D; an active hold is
deactivated by a part containing an alphabetic character (Unicode
`is_alphabetic` embedded by its ASCII restriction). While active the part is
accumulated into the hold; otherwise the hold is drained and the part copied
through. -/
def linkifyStep (rollerOk : List Char → Bool) (input : List Char)
    (st : LinkifyState) (part : List Char) : LinkifyState :=
  let activate := !st.hold_active && part.any Char.isDigit &&
    (part.contains 'd' || part.contains 'D')
  let hold_active :=
    if activate then true
    else if st.hold_active && part.any Char.isAlpha then false
    else st.hold_active
  let hold_offset := if activate then st.input_offset else st.hold_offset
  if hold_active then
    { result := st.result, input_offset := st.input_offset + part.length,
      hold := st.hold ++ part, hold_offset := hold_offset, hold_active := true }
  else
    { result := flushHold rollerOk input hold_offset st.input_offset st.hold st.result ++ part,
      input_offset := st.input_offset + part.length, hold := [],
      hold_offset := hold_offset, hold_active := false }

/-- From `core/src/reference/command.rs` (`linkify_dice`): fold the loop over
the inclusive split of the input and append whatever is still held at the
end. Only the `caith::Roller` validity check is external (the parameter
`rollerOk`); byte offsets are embedded as character offsets. -/
def linkify_dice (rollerOk : List Char → Bool) (s : String) : String :=
  let input := s.data
  let final := (splitInclusive isSepChar input).foldl (linkifyStep rollerOk input)
    { result := [], input_offset := 0, hold := [], hold_offset := 0, hold_active := false }
  String.mk (final.result ++ final.hold)

/-- Modelled from the spec: the external collaborators used by
`ReferenceCommand::run` — the Display text of the reference data types, the
spell index listing, the Open Game License document (an included static
file), and the `caith` dice roller's validity check consumed by the embedded
`linkify_dice`. -/
structure RunContext where
  spellText : Spell → String
  itemText : Item → String
  itemCategoryText : ItemCategory → String
  magicItemText : MagicItem → String
  spellListText : String
  oglText : String
  rollerOk : List Char → Bool

/-- From `core/src/reference/command.rs` (`Runnable::run`): every variant
formats its text and returns Ok; all variants except OpenGameLicense pass
their body through `linkify_dice` and append the Open Game Content
attribution footer naming the rendered entry (or "This listing" for the two
index variants). The unused input and AppMeta arguments are omitted. -/
def ReferenceCommand.run (ctx : RunContext) (d : RefData) :
    ReferenceCommand → Except String String
  | ReferenceCommand.Spell s =>
    Except.ok (linkify_dice ctx.rollerOk (ctx.spellText s) ++ "\n\n*" ++ d.spells.name s ++
      " is Open Game Content subject to the `Open Game License`.*")
  | ReferenceCommand.Spells =>
    Except.ok (linkify_dice ctx.rollerOk ctx.spellListText ++ "\n\n*" ++ "This listing" ++
      " is Open Game Content subject to the `Open Game License`.*")
  | ReferenceCommand.Item i =>
    Except.ok (linkify_dice ctx.rollerOk (ctx.itemText i) ++ "\n\n*" ++ d.items.name i ++
      " is Open Game Content subject to the `Open Game License`.*")
  | ReferenceCommand.ItemCategory c =>
    Except.ok (linkify_dice ctx.rollerOk (ctx.itemCategoryText c) ++ "\n\n*" ++
      "This listing" ++ " is Open Game Content subject to the `Open Game License`.*")
  | ReferenceCommand.MagicItem m =>
    Except.ok (linkify_dice ctx.rollerOk (ctx.magicItemText m) ++ "\n\n*" ++
      d.magicItems.name m ++ " is Open Game Content subject to the `Open Game License`.*")
  | ReferenceCommand.OpenGameLicense => Except.ok ctx.oglText

/-- C9: for every ReferenceCommand variant and every rendering context, run
returns Ok with formatted text (the Err branch of its result is never
produced), and every variant except OpenGameLicense appends the Open Game
Content attribution footer to its output. -/
theorem c9_run_ok_footer (ctx : RunContext) (d : RefData) (c : ReferenceCommand) :
    (∃ out, ReferenceCommand.run ctx d c = Except.ok out) ∧
    (c ≠ ReferenceCommand.OpenGameLicense →
      ∃ pre out, ReferenceCommand.run ctx d c = Except.ok out ∧
        out.data = pre ++
          (" is Open Game Content subject to the `Open Game License`.*").data) := by
  cases c with
  | Spell s =>
    exact ⟨⟨_, rfl⟩, fun _ =>
      ⟨(linkify_dice ctx.rollerOk (ctx.spellText s) ++ "\n\n*" ++ d.spells.name s).data,
        _, rfl, by simp [String.data_append]⟩⟩
  | Spells =>
    exact ⟨⟨_, rfl⟩, fun _ =>
      ⟨(linkify_dice ctx.rollerOk ctx.spellListText ++ "\n\n*" ++ "This listing").data,
        _, rfl, by simp [String.data_append]⟩⟩
  | Item i =>
    exact ⟨⟨_, rfl⟩, fun _ =>
      ⟨(linkify_dice ctx.rollerOk (ctx.itemText i) ++ "\n\n*" ++ d.items.name i).data,
        _, rfl, by simp [String.data_append]⟩⟩
  | ItemCategory k =>
    exact ⟨⟨_, rfl⟩, fun _ =>
      ⟨(linkify_dice ctx.rollerOk (ctx.itemCategoryText k) ++ "\n\n*" ++
          "This listing").data,
        _, rfl, by simp [String.data_append]⟩⟩
  | MagicItem m =>
    exact ⟨⟨_, rfl⟩, fun _ =>
      ⟨(linkify_dice ctx.rollerOk (ctx.magicItemText m) ++ "\n\n*" ++
          d.magicItems.name m).data,
        _, rfl, by simp [String.data_append]⟩⟩
  | OpenGameLicense => exact ⟨⟨_, rfl⟩, fun h => absurd rfl h⟩

/-- C9 witness: a concrete run of the spell-index command returns Ok and its
output carries the attribution footer. -/
theorem c9_witness :
    (∃ out, ReferenceCommand.run
      { spellText := fun _ => "", itemText := fun _ => "", itemCategoryText := fun _ => "",
        magicItemText := fun _ => "", spellListText := "", oglText := "",
        rollerOk := fun _ => false } stdRefData ReferenceCommand.Spells = Except.ok out) ∧
    (∃ pre out, ReferenceCommand.run
      { spellText := fun _ => "", itemText := fun _ => "", itemCategoryText := fun _ => "",
        magicItemText := fun _ => "", spellListText := "", oglText := "",
        rollerOk := fun _ => false } stdRefData ReferenceCommand.Spells = Except.ok out ∧
      out.data = pre ++
        (" is Open Game Content subject to the `Open Game License`.*").data) := by
  have h := c9_run_ok_footer
    { spellText := fun _ => "", itemText := fun _ => "", itemCategoryText := fun _ => "",
      magicItemText := fun _ => "", spellListText := "", oglText := "",
      rollerOk := fun _ => false } stdRefData ReferenceCommand.Spells
  exact ⟨h.1, h.2 (by decide)⟩


/-! ## Field and NPC generation (src/world/npc/race/mod.rs)

The random source (`&mut impl Rng`) is embedded as explicit state passing
over an abstract state type σ: every generation step consumes a state and
returns the advanced state alongside its value. The per-race generation
strategies (the `human` and `warforged` submodules) are not among the
provided sources, so the `RaceGenerate` capability set is kept abstract and
the concrete strategies are parameters. The Rust `world` module is mirrored
as the `world` namespace (the name `Field` is taken by Mathlib at the root).
-/

namespace world

/-- Modelled from the spec: `Field<T>` holds an optional generated or
assigned value and a boolean locked flag. -/
structure Field (α : Type) where
  value : Option α
  locked : Bool
deriving DecidableEq

/-- Modelled from the spec: `Field::replace_with` applies the generator
closure to the current value only if the field is unlocked; a locked field is
returned untouched and the random state is not advanced (the closure never
runs). -/
def Field.replace_with (fld : Field α) (f : Option α → σ → α × σ) (rng : σ) :
    Field α × σ :=
  if fld.locked then (fld, rng)
  else
    let r := f fld.value rng
    ({ fld with value := some r.1 }, r.2)

/-- From `src/world/npc/race/mod.rs`: the closed set of races. -/
inductive Race where
  | Human
  | Warforged
deriving DecidableEq

/-- Modelled from the spec: the NPC fields touched by race regeneration (the
`Npc` struct itself is not among the provided sources); gender, age and size
types are kept abstract. -/
structure Npc (G A S : Type) where
  gender : Field G
  age : Field A
  name : Field String
  size : Field S
  race : Field Race
deriving DecidableEq

/-- From `src/world/npc/race/mod.rs`: the `RaceGenerate` capability set —
one generator per attribute, each advancing the random state. -/
structure RaceGenerate (σ G A S : Type) where
  gen_gender : σ → G × σ
  gen_age : σ → A × σ
  gen_name : σ → A → G → String × σ
  gen_size : σ → A → G → S × σ

/-- From `src/world/npc/race/mod.rs` (`RaceGenerate::regenerate`, the default
trait method): regenerate gender, then age, each via `replace_with`; then,
only if both gender and age now hold a value, regenerate name and size. The
function is total: a missing dependency skips the name/size steps, it never
fails. -/
def RaceGenerate.regenerate (R : RaceGenerate σ G A S) (rng : σ) (npc : Npc G A S) :
    Npc G A S × σ :=
  let g := npc.gender.replace_with (fun _ => R.gen_gender) rng
  let a := npc.age.replace_with (fun _ => R.gen_age) g.2
  match g.1.value, a.1.value with
  | some gender, some age =>
    let n := npc.name.replace_with (fun _ s => R.gen_name s age gender) a.2
    let z := npc.size.replace_with (fun _ s => R.gen_size s age gender) n.2
    ({ npc with gender := g.1, age := a.1, name := n.1, size := z.1 }, z.2)
  | _, _ => ({ npc with gender := g.1, age := a.1 }, a.2)

/-- From `src/world/npc/race/mod.rs` (the free function `regenerate`):
dispatch on the already-resolved race field; with no race set, the NPC is
left untouched. The concrete strategies of the `human` and `warforged`
submodules are parameters. -/
def race_regenerate (human warforged : RaceGenerate σ G A S) (rng : σ)
    (npc : Npc G A S) : Npc G A S × σ :=
  match npc.race.value with
  | some Race.Human => human.regenerate rng npc
  | some Race.Warforged => warforged.regenerate rng npc
  | none => (npc, rng)

theorem replace_with_locked (fld : Field α) (f : Option α → σ → α × σ) (rng : σ)
    (h : fld.locked = true) : fld.replace_with f rng = (fld, rng) := by
  simp [Field.replace_with, h]

theorem regenerate_locked_fields (R : RaceGenerate σ G A S) (rng : σ) (npc : Npc G A S) :
    ((R.regenerate rng npc).1.race = npc.race) ∧
    (npc.gender.locked = true → (R.regenerate rng npc).1.gender = npc.gender) ∧
    (npc.age.locked = true → (R.regenerate rng npc).1.age = npc.age) ∧
    (npc.name.locked = true → (R.regenerate rng npc).1.name = npc.name) ∧
    (npc.size.locked = true → (R.regenerate rng npc).1.size = npc.size) := by
  refine ⟨?_, fun h => ?_, fun h => ?_, fun h => ?_, fun h => ?_⟩ <;>
    simp only [RaceGenerate.regenerate] <;>
    first
    | (split <;> rfl)
    | (simp only [replace_with_locked _ _ _ h]; split <;> rfl)

/-- C1: for every NPC and every Field of that NPC that is locked, regenerate
leaves the field (value and lock state) unchanged, regardless of whether its
dependencies (age, gender) are present; the race field is never written at
all. -/
theorem c1_regenerate_preserves_locked (human warforged : RaceGenerate σ G A S)
    (rng : σ) (npc : Npc G A S) :
    ((race_regenerate human warforged rng npc).1.race = npc.race) ∧
    (npc.gender.locked = true →
      (race_regenerate human warforged rng npc).1.gender = npc.gender) ∧
    (npc.age.locked = true →
      (race_regenerate human warforged rng npc).1.age = npc.age) ∧
    (npc.name.locked = true →
      (race_regenerate human warforged rng npc).1.name = npc.name) ∧
    (npc.size.locked = true →
      (race_regenerate human warforged rng npc).1.size = npc.size) := by
  rw [race_regenerate]
  match hr : npc.race.value with
  | some Race.Human => exact regenerate_locked_fields human rng npc
  | some Race.Warforged => exact regenerate_locked_fields warforged rng npc
  | none => exact ⟨rfl, fun _ => rfl, fun _ => rfl, fun _ => rfl, fun _ => rfl⟩

/-- Modelled from the spec: a pair of concrete sample strategies over natural
numbers used to instantiate the abstract strategy parameters in witnesses. -/
def sampleHuman : RaceGenerate Nat Nat Nat Nat where
  gen_gender := fun s => (1, s + 1)
  gen_age := fun s => (2, s + 1)
  gen_name := fun s _ _ => ("x", s + 1)
  gen_size := fun s _ _ => (3, s + 1)

/-- Modelled from the spec: the second sample strategy. -/
def sampleWarforged : RaceGenerate Nat Nat Nat Nat where
  gen_gender := fun s => (4, s + 1)
  gen_age := fun s => (5, s + 1)
  gen_name := fun s _ _ => ("y", s + 1)
  gen_size := fun s _ _ => (6, s + 1)

/-- Modelled from the spec: a concrete sample NPC with all fields locked. -/
def lockedNpc : Npc Nat Nat Nat where
  gender := ⟨none, true⟩
  age := ⟨some 9, true⟩
  name := ⟨some "z", true⟩
  size := ⟨none, true⟩
  race := ⟨some Race.Human, true⟩

/-- C1 witness: the concrete locked NPC keeps its race and its locked name
through a concrete regeneration pass, even though its gender dependency is
absent. -/
theorem c1_witness :
    (race_regenerate sampleHuman sampleWarforged 0 lockedNpc).1.race = lockedNpc.race ∧
    (race_regenerate sampleHuman sampleWarforged 0 lockedNpc).1.name = lockedNpc.name := by
  have h := c1_regenerate_preserves_locked sampleHuman sampleWarforged 0 lockedNpc
  exact ⟨h.1, h.2.2.2.1 (by decide)⟩

/-- From `src/world/npc/race/mod.rs`: the race-to-strategy dispatch table of
the free `regenerate` function. -/
def strategyFor (human warforged : RaceGenerate σ G A S) : Race → RaceGenerate σ G A S
  | Race.Human => human
  | Race.Warforged => warforged

/-- From `src/world/npc/race/mod.rs`: the first regeneration step — the
gender field after its `replace_with` pass. -/
def regenStep1 (R : RaceGenerate σ G A S) (rng : σ) (npc : Npc G A S) : Field G × σ :=
  npc.gender.replace_with (fun _ => R.gen_gender) rng

/-- From `src/world/npc/race/mod.rs`: the second regeneration step — the age
field after its `replace_with` pass, fed the state left by the first step. -/
def regenStep2 (R : RaceGenerate σ G A S) (rng : σ) (npc : Npc G A S) : Field A × σ :=
  npc.age.replace_with (fun _ => R.gen_age) (regenStep1 R rng npc).2

/-- C3: for every NPC whose race field is set, regenerate first regenerates
gender and age via `replace_with`; it then regenerates name and size exactly
when both the gender field and the age field hold a value after those first
two steps, and skips them (leaving name and size untouched) when either is
absent — the call always succeeds either way, since the embedding is a total
function. -/
theorem c3_regenerate_dependency (human warforged : RaceGenerate σ G A S) (rng : σ)
    (npc : Npc G A S) (r : Race) (h : npc.race.value = some r) :
    ((race_regenerate human warforged rng npc).1.gender =
        (regenStep1 (strategyFor human warforged r) rng npc).1) ∧
    ((race_regenerate human warforged rng npc).1.age =
        (regenStep2 (strategyFor human warforged r) rng npc).1) ∧
    (∀ gv av, (regenStep1 (strategyFor human warforged r) rng npc).1.value = some gv →
      (regenStep2 (strategyFor human warforged r) rng npc).1.value = some av →
      (race_regenerate human warforged rng npc).1.name =
        (npc.name.replace_with
          (fun _ s => (strategyFor human warforged r).gen_name s av gv)
          (regenStep2 (strategyFor human warforged r) rng npc).2).1 ∧
      (race_regenerate human warforged rng npc).1.size =
        (npc.size.replace_with
          (fun _ s => (strategyFor human warforged r).gen_size s av gv)
          (npc.name.replace_with
            (fun _ s => (strategyFor human warforged r).gen_name s av gv)
            (regenStep2 (strategyFor human warforged r) rng npc).2).2).1) ∧
    (((regenStep1 (strategyFor human warforged r) rng npc).1.value = none ∨
        (regenStep2 (strategyFor human warforged r) rng npc).1.value = none) →
      (race_regenerate human warforged rng npc).1.name = npc.name ∧
      (race_regenerate human warforged rng npc).1.size = npc.size) := by
  have hd : race_regenerate human warforged rng npc =
      (strategyFor human warforged r).regenerate rng npc := by
    rw [race_regenerate, h]
    cases r <;> rfl
  rw [hd]
  cases hg : (regenStep1 (strategyFor human warforged r) rng npc).1.value with
  | none =>
    refine ⟨?_, ?_, ?_, ?_⟩ <;>
      simp only [RaceGenerate.regenerate, regenStep1, regenStep2] at hg ⊢ <;>
      rw [hg] <;>
      simp
  | some gv =>
    cases ha : (regenStep2 (strategyFor human warforged r) rng npc).1.value with
    | none =>
      refine ⟨?_, ?_, ?_, ?_⟩ <;>
        simp only [RaceGenerate.regenerate, regenStep1, regenStep2] at hg ha ⊢ <;>
        rw [hg, ha] <;>
        simp
    | some av =>
      refine ⟨?_, ?_, ?_, ?_⟩ <;>
        simp only [RaceGenerate.regenerate, regenStep1, regenStep2] at hg ha ⊢ <;>
        rw [hg, ha] <;>
        simp only [Option.some.injEq, forall_eq] <;>
        first
        | rfl
        | simp

/-- Modelled from the spec: a concrete sample NPC, fully unlocked and empty
apart from its resolved race. -/
def freshNpc : Npc Nat Nat Nat where
  gender := ⟨none, false⟩
  age := ⟨none, false⟩
  name := ⟨none, false⟩
  size := ⟨none, false⟩
  race := ⟨some Race.Human, false⟩

/-- C3 witness: on the concrete fresh NPC the race is set, both dependencies
are present after the first two steps, and name and size are regenerated from
them. -/
theorem c3_witness :
    (regenStep1 (strategyFor sampleHuman sampleWarforged Race.Human) 0 freshNpc).1.value =
      some 1 ∧
    (regenStep2 (strategyFor sampleHuman sampleWarforged Race.Human) 0 freshNpc).1.value =
      some 2 ∧
    ((race_regenerate sampleHuman sampleWarforged 0 freshNpc).1.name =
      (freshNpc.name.replace_with
        (fun _ s => (strategyFor sampleHuman sampleWarforged Race.Human).gen_name s 2 1)
        (regenStep2 (strategyFor sampleHuman sampleWarforged Race.Human) 0 freshNpc).2).1 ∧
    (race_regenerate sampleHuman sampleWarforged 0 freshNpc).1.size =
      (freshNpc.size.replace_with
        (fun _ s => (strategyFor sampleHuman sampleWarforged Race.Human).gen_size s 2 1)
        (freshNpc.name.replace_with
          (fun _ s => (strategyFor sampleHuman sampleWarforged Race.Human).gen_name s 2 1)
          (regenStep2 (strategyFor sampleHuman sampleWarforged Race.Human) 0 freshNpc).2).2).1) :=
  ⟨by decide, by decide,
    (c3_regenerate_dependency sampleHuman sampleWarforged 0 freshNpc Race.Human rfl).2.2.1
      1 2 (by decide) (by decide)⟩

/-- From `core/src/world/mod.rs` (the `Generate` trait): an entity generator
is a default entity plus an in-place regeneration procedure taking the random
state and the demographics. -/
structure GenerateImpl (ε σ δ : Type) where
  dflt : ε
  regen : ε → σ → δ → ε × σ

/-- From `core/src/world/mod.rs` (`Generate::generate`, the default trait
method): generate builds the default entity and regenerates it. -/
def GenerateImpl.generate (Gi : GenerateImpl ε σ δ) (rng : σ) (dem : δ) : ε × σ :=
  Gi.regen Gi.dflt rng dem

/-- C5: generation is deterministic in the random source — the embedding
threads the random state explicitly through every step (`replace_with` only
advances it via the passed generator closures), so two runs of regenerate on
equal starting entities with equal random states, and two runs of generate
with equal random states and equal demographics, produce equal results. No
generation step reads any state other than the explicitly passed one. -/
theorem c5_generation_deterministic (human warforged : RaceGenerate σ G A S)
    (npc₁ npc₂ : Npc G A S) (rng₁ rng₂ : σ) (Gi : GenerateImpl ε σ δ) (dem₁ dem₂ : δ)
    (h1 : npc₁ = npc₂) (h2 : rng₁ = rng₂) (h3 : dem₁ = dem₂) :
    race_regenerate human warforged rng₁ npc₁ = race_regenerate human warforged rng₂ npc₂ ∧
    Gi.generate rng₁ dem₁ = Gi.generate rng₂ dem₂ := by
  subst h1
  subst h2
  subst h3
  exact ⟨rfl, rfl⟩

/-- C5 witness: a concrete instantiation of the determinism statement. -/
theorem c5_witness :
    race_regenerate sampleHuman sampleWarforged 0 freshNpc =
      race_regenerate sampleHuman sampleWarforged 0 freshNpc ∧
    GenerateImpl.generate ⟨freshNpc, fun n s _ => (n, s)⟩ (0 : Nat) (0 : Nat) =
      GenerateImpl.generate ⟨freshNpc, fun n s _ => (n, s)⟩ (0 : Nat) (0 : Nat) :=
  c5_generation_deterministic sampleHuman sampleWarforged freshNpc freshNpc 0 0
    ⟨freshNpc, fun n s _ => (n, s)⟩ 0 0 rfl rfl rfl

/-! ## World (core/src/world/mod.rs) -/

/-- From `core/src/world/mod.rs`: UUIDs, embedded as their sixteen bytes. -/
structure Uuid where
  bytes : List Nat
deriving DecidableEq

/-- From `core/src/world/mod.rs`: `Uuid::from_bytes`. -/
def Uuid.from_bytes (b : List Nat) : Uuid := ⟨b⟩

/-- Modelled from the spec: the region entity (its module is not among the
provided sources; only its default value matters here). -/
inductive Region where
  | default
deriving DecidableEq

/-- Modelled from the spec: placeholder for location entities. -/
inductive LocationRecord where
  | default
deriving DecidableEq

/-- Modelled from the spec: placeholder for NPC entities of the world map. -/
inductive NpcRecord where
  | default
deriving DecidableEq

/-- From `core/src/world/mod.rs`: the world — its own UUID plus the three
entity maps, embedded as association lists. -/
structure World where
  uuid : Uuid
  regions : List (Uuid × Region)
  locations : List (Uuid × LocationRecord)
  npcs : List (Uuid × NpcRecord)

/-- From `core/src/world/mod.rs`: `World::ROOT_UUID`, sixteen 0xFF bytes. -/
def World.ROOT_UUID : Uuid := Uuid.from_bytes (List.replicate 16 0xFF)

/-- From `core/src/world/mod.rs` (`impl Default for World`): a fresh world
holds exactly the root region and empty location and NPC maps. The call to
`Uuid::new_v4` for the world's own UUID is an external randomness source,
modelled as the parameter. -/
def World.default (freshUuid : Uuid) : World where
  uuid := freshUuid
  regions := [(World.ROOT_UUID, Region.default)]
  locations := []
  npcs := []

/-- C10: a freshly constructed World contains exactly one region, stored
under the reserved root UUID whose sixteen bytes are all 0xFF, and no
locations or NPCs; looking the root UUID up in a fresh world always succeeds,
so it cannot be a dangling reference there. -/
theorem c10_world_default_root (u : Uuid) :
    (World.default u).regions = [(World.ROOT_UUID, Region.default)] ∧
    World.ROOT_UUID.bytes = List.replicate 16 255 ∧
    (World.default u).regions.lookup World.ROOT_UUID = some Region.default ∧
    (World.default u).locations = [] ∧
    (World.default u).npcs = [] :=
  ⟨rfl, rfl, by simp [World.default, List.lookup], rfl, rfl⟩

end world
